import Mathlib

/-!
Shallow embedding of the classroom epidemic-transmission simulator
(`transmission_simulation.py`) and verification of its specification.

Conventions of the embedding:
* Python floats are modelled as real numbers.
* Python's built-in `round` (round-half-to-even) is modelled by `pyround`.
* The global numpy random generator is modelled by oracle functions: every
  uniform draw the program makes is read off an oracle indexed by the
  simulated time and/or the occupant index that consumes it.  Each healthy
  occupant consumes exactly one infection draw per timestep (`u`), and one
  progression draw upon infection (`v`), so this indexing is a bijective
  renaming of the sequential draw stream.
* Python dicts keyed by occupant index are modelled as a key list
  (`keys : List Nat`, the dict iteration order) together with total maps
  for the values; the simulator only ever reads values at keys.
-/

noncomputable section

/-- Status of an occupant (class `Status(IntEnum)` in the source). -/
inductive Status where
  | HEALTH
  | INFECTED
  | RECOVERED
  | VACCINATED
deriving DecidableEq

/-- Integer code of a status, as in the source `IntEnum` and in the
output snapshots (`int(status[sub])`). -/
def statusCode : Status → ℤ
  | .HEALTH => 0
  | .INFECTED => 1
  | .RECOVERED => 2
  | .VACCINATED => -1

/-- An occupant's bounding box at one timestep: `(lft_x, lft_y, rht_x, rht_y)`. -/
structure Box where
  lx : ℝ
  ly : ℝ
  rx : ℝ
  ry : ℝ

/-- `dot_product` from the source. -/
def dot_product (a b : ℝ × ℝ) : ℝ := a.1 * b.1 + a.2 * b.2

/-- `EpidemicDisease._center`: center point of a box. -/
def center (loc : Box) : ℝ × ℝ := ((loc.lx + loc.rx) / 2, (loc.ly + loc.ry) / 2)

/-- `EpidemicDisease._dr`: half-extent (orientation) vector of a box. -/
def dr (loc : Box) : ℝ × ℝ := ((loc.lx - loc.rx) / 2, (loc.ly - loc.ry) / 2)

/-- `EpidemicDisease._dis`: Euclidean distance between two points. -/
def dis (a b : ℝ × ℝ) : ℝ := Real.sqrt ((a.1 - b.1) ^ 2 + (a.2 - b.2) ^ 2)

/-- Two-argument arctangent, modelling `numpy.arctan2 (y, x)`. -/
def arctan2 (y x : ℝ) : ℝ :=
  if 0 < x then Real.arctan (y / x)
  else if x < 0 then
    (if 0 ≤ y then Real.arctan (y / x) + Real.pi else Real.arctan (y / x) - Real.pi)
  else
    (if 0 < y then Real.pi / 2 else if y < 0 then -(Real.pi / 2) else 0)

/-- Python's built-in `round` on a real value, as an integer
(round half to even, "banker's rounding"). -/
def pyround (x : ℝ) : ℤ :=
  if x - ⌊x⌋ < 1 / 2 then ⌊x⌋
  else if (1 : ℝ) / 2 < x - ⌊x⌋ then ⌊x⌋ + 1
  else if Even ⌊x⌋ then ⌊x⌋ else ⌊x⌋ + 1

/-- Disease constants of `EpidemicDisease.__init__`.  `conservative_time`
is declared `int` (unit: hour) in the source signature. -/
structure Disease where
  sigma_r : ℝ
  sigma_theta : ℝ
  conservative_time : ℤ
  no_infectious : ℝ
  gamma : ℝ
  r0 : ℝ
  nc : ℝ
  p_daily : ℝ

/-- `self.beta_0 = self.gamma * self.r0`. -/
def beta_0 (D : Disease) : ℝ := D.gamma * D.r0

/-- `self.rho_daily = self.nc / (np.pi * 2 ** 2) * self.p_daily`. -/
def rho_daily (D : Disease) : ℝ := D.nc / (Real.pi * 2 ^ 2) * D.p_daily

/-- `self.beta_max = self.beta_0 / (self.rho_daily * self.sigma_r ** 2 * self.sigma_theta ** 2)`. -/
def beta_max (D : Disease) : ℝ :=
  beta_0 D / (rho_daily D * D.sigma_r ^ 2 * D.sigma_theta ^ 2)

/-- `curr_hour = int(round(t / 3600))`: the simulated time in seconds
converted to the current integer hour. -/
def curr_hour (t : ℕ) : ℤ := pyround ((t : ℝ) / 3600)

/-- `EpidemicDisease.get_progress_time`.  `offset` is the infection time in
seconds; `p` is the single uniform draw the source takes from the global
generator (`p = np.random.uniform(0, 1)`), passed in explicitly here.
Returns `(start_infec, stop_infec, recovery_time)` in integer hours. -/
def get_progress_time (D : Disease) (offset : ℕ) (p : ℝ) : ℤ × ℤ × ℤ :=
  (curr_hour offset + D.conservative_time,
   curr_hour offset + pyround (-Real.log p / (D.no_infectious * 3600)),
   curr_hour offset + pyround (-Real.log p / (D.gamma * 3600)))

/-- `EpidemicDisease.get_angle`: the two directional facing angles of the
boxes, via `atan2` of the half-extent projections onto the center vector
and its perpendicular. -/
def get_angle (loc_a loc_b : Box) : ℝ × ℝ :=
  (arctan2
      (-(dot_product ((center loc_b).1 - (center loc_a).1,
                      (center loc_b).2 - (center loc_a).2) (dr loc_a)))
      (dot_product (-((center loc_b).2 - (center loc_a).2),
                    (center loc_b).1 - (center loc_a).1) (dr loc_a)),
   arctan2
      (dot_product ((center loc_b).1 - (center loc_a).1,
                    (center loc_b).2 - (center loc_a).2) (dr loc_b))
      (-(dot_product (-((center loc_b).2 - (center loc_a).2),
                      (center loc_b).1 - (center loc_a).1) (dr loc_b))))

/-- The hazard curve of `EpidemicDisease.get_beta` as a function of the
center distance and the two facing angles:
`beta_max * exp(-(r**2 / (2*sigma_r**2)) - (t1**2 + t2**2) / (2*sigma_theta**2))`. -/
def hazard (D : Disease) (r t1 t2 : ℝ) : ℝ :=
  beta_max D *
    Real.exp (-(r ^ 2 / (2 * D.sigma_r ^ 2)) - (t1 ^ 2 + t2 ^ 2) / (2 * D.sigma_theta ^ 2))

/-- `EpidemicDisease.get_beta`: the hazard curve evaluated at the distance
between the two box centers and the two facing angles. -/
def get_beta (D : Disease) (loc_a loc_b : Box) : ℝ :=
  hazard D (dis (center loc_a) (center loc_b)) (get_angle loc_a loc_b).1
    (get_angle loc_a loc_b).2

/-- The infectious window test of `get_transmission_rate`:
`stop_infec >= curr_hour >= start_infec` on a `(start, stop, recovery)` triple. -/
def inWindow (p : ℤ × ℤ × ℤ) (h : ℤ) : Prop := p.1 ≤ h ∧ h ≤ p.2.1

instance (p : ℤ × ℤ × ℤ) (h : ℤ) : Decidable (inWindow p h) := by
  unfold inWindow; infer_instance

/-- `EpidemicDisease.get_transmission_rate`: the directional hazard pair
`(b_i, b_j)` contributed by one ordered pair of occupants. -/
def get_transmission_rate (D : Disease) (t : ℕ) (status_a status_b : Status)
    (loc_a loc_b : Box) (progress_time_a progress_time_b : ℤ × ℤ × ℤ) : ℝ × ℝ :=
  if status_a = Status.HEALTH ∧ status_b = Status.INFECTED then
    (if inWindow progress_time_b (curr_hour t) then (get_beta D loc_a loc_b, 0) else (0, 0))
  else if status_a = Status.INFECTED ∧ status_b = Status.HEALTH then
    (if inWindow progress_time_a (curr_hour t) then (0, get_beta D loc_a loc_b) else (0, 0))
  else (0, 0)

/-- rho_daily as the specification writes it: `nc/(4*pi) * p_daily`. -/
def spec_rho_daily (D : Disease) : ℝ := D.nc / (4 * Real.pi) * D.p_daily

/-- beta_max as the specification writes it:
`(gamma*R0) / (rho_daily * sigma_r**2 * sigma_theta**2)` with the spec's rho. -/
def spec_beta_max (D : Disease) : ℝ :=
  D.gamma * D.r0 / (spec_rho_daily D * D.sigma_r ^ 2 * D.sigma_theta ^ 2)

/-- Occupant-indexed status map (the values of the `status` dict). -/
abbrev StatusMap := ℕ → Status

/-- Occupant-indexed progression timelines (the `progress_time` dict):
`(start_infec, stop_infec, recovery_time)` in hours. -/
abbrev PT := ℕ → ℤ × ℤ × ℤ

/-- One timestep's location mapping (`loc_dict`): `none` models an occupant
missing from the mapping (sentinel `(-1,-1,-1,-1)` rows are dropped by
`load_class_ob_data`). -/
abbrev LocMap := ℕ → Option Box

/-- `itertools.combinations(keys, 2)` in iteration order. -/
def combs : List ℕ → List (ℕ × ℕ)
  | [] => []
  | x :: xs => xs.map (fun y => (x, y)) ++ combs xs

/-- The `(beta_i, beta_j)` pair one pair of occupants contributes in
`simulate_transmission`, zero if either is missing from `loc_dict`. -/
def pairContrib (D : Disease) (t : ℕ) (status : StatusMap) (loc : LocMap) (pt : PT)
    (p : ℕ × ℕ) : ℝ × ℝ :=
  match loc p.1, loc p.2 with
  | some la, some lb =>
      get_transmission_rate D t (status p.1) (status p.2) la lb (pt p.1) (pt p.2)
  | _, _ => (0, 0)

/-- One iteration of the accumulation loop of `simulate_transmission`:
`sum_beta[kid_i] += beta_i; sum_beta[kid_j] += beta_j` when both occupants
are present in `loc_dict`. -/
def pairStep (D : Disease) (t : ℕ) (status : StatusMap) (loc : LocMap) (pt : PT)
    (sb : ℕ → ℝ) (p : ℕ × ℕ) : ℕ → ℝ :=
  match loc p.1, loc p.2 with
  | some la, some lb =>
      let bb := get_transmission_rate D t (status p.1) (status p.2) la lb (pt p.1) (pt p.2)
      let sb1 := Function.update sb p.1 (sb p.1 + bb.1)
      Function.update sb1 p.2 (sb1 p.2 + bb.2)
  | _, _ => sb

/-- The accumulated hazard dict `sum_beta` of `simulate_transmission`,
starting from `{sub: 0 for sub in status}`. -/
def sum_beta (D : Disease) (t : ℕ) (keys : List ℕ) (status : StatusMap) (loc : LocMap)
    (pt : PT) : ℕ → ℝ :=
  (combs keys).foldl (pairStep D t status loc pt) (fun _ => 0)

/-- One iteration of the infection loop of `simulate_transmission`: a
healthy occupant draws `u k` and is infected when the draw is at most its
accumulated hazard, re-sampling its progression from draw `v k`. -/
def infStep (D : Disease) (t : ℕ) (sb : ℕ → ℝ) (u v : ℕ → ℝ)
    (sp : StatusMap × PT) (k : ℕ) : StatusMap × PT :=
  if sp.1 k = Status.HEALTH then
    (if u k ≤ sb k then
      (Function.update sp.1 k Status.INFECTED,
       Function.update sp.2 k (get_progress_time D t (v k)))
    else sp)
  else sp

/-- `Classroom.simulate_transmission`: accumulate pairwise hazards over all
`combinations(status, 2)`, then infect each healthy occupant whose uniform
draw is at most its accumulated hazard.  `u k` is the infection draw and
`v k` the progression draw for occupant `k` at this call. -/
def simulate_transmission (D : Disease) (t : ℕ) (keys : List ℕ) (status : StatusMap)
    (loc : LocMap) (pt : PT) (u v : ℕ → ℝ) : StatusMap × PT :=
  keys.foldl (infStep D t (sum_beta D t keys status loc pt) u v) (status, pt)

/-- One iteration of `Classroom.check_recovery`: an infected occupant
whose `recovery_time <= t / 3600` becomes recovered (`t` in seconds, true
division as in Python 3). -/
def crStep (t : ℕ) (pt : PT) (st : StatusMap) (sub : ℕ) : StatusMap :=
  if st sub = Status.INFECTED ∧ (((pt sub).2.2 : ℝ) ≤ (t : ℝ) / 3600) then
    Function.update st sub Status.RECOVERED
  else st

/-- `Classroom.check_recovery`: resolve recoveries over all occupants. -/
def check_recovery (t : ℕ) (keys : List ℕ) (status : StatusMap) (pt : PT) : StatusMap :=
  keys.foldl (crStep t pt) status

/-- Insertion into a sorted list of occupant indices. -/
def insert_sorted (n : ℕ) : List ℕ → List ℕ
  | [] => [n]
  | x :: xs => if n ≤ x then n :: x :: xs else x :: insert_sorted n xs

/-- `sorted(status)`: the occupant indices in increasing order. -/
def sortKeys (l : List ℕ) : List ℕ := l.foldr insert_sorted []

/-- One emitted snapshot (`Classroom._append_status`): the integer status
codes in sorted occupant-index order. -/
def snapshotOf (keys : List ℕ) (st : StatusMap) : List ℤ :=
  (sortKeys keys).map (fun k => statusCode (st k))

/-- The running state of `Classroom.simulate`: the time in seconds, the
status and progression dicts, and the snapshots emitted so far. -/
structure SimState where
  t : ℕ
  status : StatusMap
  pt : PT
  snaps : List (List ℤ)

/-- The output/extinction block guarded by `t % output_interval == 0` in
`Classroom.simulate`: resolve recoveries, emit a snapshot, and stop
(second component `true`) when no occupant is infected. -/
def outputCheck (interval : ℕ) (keys : List ℕ) (s : SimState) : SimState × Bool :=
  if s.t % interval = 0 then
    let st := check_recovery s.t keys s.status s.pt
    let snaps := s.snaps ++ [snapshotOf keys st]
    if Status.INFECTED ∈ keys.map st then
      ({ s with status := st, snaps := snaps }, false)
    else
      ({ s with status := st, snaps := snaps }, true)
  else (s, false)

/-- The in-class loop of `Classroom.simulate` over one day's location
trace: per recorded sample, the output/extinction block, then
`simulate_transmission`, then `t += 1`.  `U`/`V` are the infection and
progression draw oracles indexed by the timestep. -/
def classLoop (D : Disease) (interval : ℕ) (keys : List ℕ) (U V : ℕ → ℕ → ℝ) :
    List LocMap → SimState → SimState × Bool
  | [], s => (s, false)
  | ld :: rest, s =>
    let oc := outputCheck interval keys s
    if oc.2 then (oc.1, true)
    else
      let r := simulate_transmission D oc.1.t keys oc.1.status ld oc.1.pt
        (U oc.1.t) (V oc.1.t)
      classLoop D interval keys U V rest
        { oc.1 with t := oc.1.t + 1, status := r.1, pt := r.2 }

/-- The off-class loop of `Classroom.simulate`: `delta_t` seconds with only
the output/extinction block. -/
def offLoop (interval : ℕ) (keys : List ℕ) : ℕ → SimState → SimState × Bool
  | 0, s => (s, false)
  | n + 1, s =>
    let oc := outputCheck interval keys s
    if oc.2 then (oc.1, true)
    else offLoop interval keys n { oc.1 with t := oc.1.t + 1 }

/-- The day loop `for day in range(1, max_simulation_days)` of
`Classroom.simulate`.  First argument is the current `day`, second the
number of remaining iterations.  Returns the final state, whether the run
returned early on extinction (`true`), and the number of completed
replays of the class-period trace. -/
def dayLoop (D : Disease) (interval : ℕ) (locData : List LocMap) (keys : List ℕ)
    (U V : ℕ → ℕ → ℝ) : ℕ → ℕ → SimState → SimState × Bool × ℕ
  | _, 0, s => (s, false, 0)
  | day, rem + 1, s =>
    let c := classLoop D interval keys U V locData s
    if c.2 then (c.1, true, 0)
    else
      let dt := (if day % 5 = 0 then 3 * 24 * 3600 else 24 * 3600) - locData.length
      let o := offLoop interval keys dt c.1
      if o.2 then (o.1, true, 1)
      else
        let rest := dayLoop D interval locData keys U V (day + 1) rem o.1
        (rest.1, rest.2.1, rest.2.2 + 1)

/-- `Classroom.simulate`: initial progression sampling at `t = 0` (one
progression draw `Vinit k` per occupant), then the day loop for
`range(1, max_simulation_days)`. -/
def simulate (D : Disease) (interval : ℕ) (locData : List LocMap) (keys : List ℕ)
    (U V : ℕ → ℕ → ℝ) (Vinit : ℕ → ℝ) (maxDays : ℕ) (status0 : StatusMap) :
    SimState × Bool × ℕ :=
  dayLoop D interval locData keys U V 1 (maxDays - 1)
    ⟨0, status0, fun k => get_progress_time D 0 (Vinit k), []⟩

/-- The per-occupant hazard contribution named by the specification: the
hazard from a co-present infected neighbor whose infectious window
contains the current hour, and zero otherwise. -/
def hazContrib (D : Disease) (t : ℕ) (status : StatusMap) (loc : LocMap) (pt : PT)
    (k j : ℕ) : ℝ :=
  match loc k, loc j with
  | some lk, some lj =>
      if status j = Status.INFECTED ∧ inWindow (pt j) (curr_hour t) then get_beta D lk lj
      else 0
  | _, _ => 0

/-- The legal status progressions of the specification: `Vaccinated` and
`Recovered` are terminal, `Healthy` moves only to `Infected`, `Infected`
only to `Recovered`. -/
def progression : Status → Status → Prop
  | .VACCINATED, s => s = .VACCINATED
  | .HEALTH, s => s = .HEALTH ∨ s = .INFECTED
  | .INFECTED, s => s = .INFECTED ∨ s = .RECOVERED
  | .RECOVERED, s => s = .RECOVERED

/-- Concrete disease with all constants one, used for witnesses. -/
def D1 : Disease := ⟨1, 1, 1, 1, 1, 1, 1, 1⟩

/-- Concrete degenerate box at the origin, used for witnesses. -/
def b0 : Box := ⟨0, 0, 0, 0⟩

/-- Concrete progression timeline whose infectious window contains hour 0
and whose recovery is far in the future, used for witnesses. -/
def pt1 : PT := fun _ => (0, 10, 1000000)

/-- Concrete status map: occupant 1 infected, everyone else healthy. -/
def stHI : StatusMap := fun k => if k = 1 then Status.INFECTED else Status.HEALTH

/-- Concrete status map: everyone healthy. -/
def stH : StatusMap := fun _ => Status.HEALTH

/-- Concrete status map: everyone infected. -/
def stI : StatusMap := fun _ => Status.INFECTED

/-- Concrete location mapping placing every occupant at `b0`. -/
def locB0 : LocMap := fun _ => some b0

/-- Concrete location mapping with every occupant absent. -/
def locNone : LocMap := fun _ => none

/-- Concrete draw oracle that always returns 0. -/
def uZero : ℕ → ℝ := fun _ => 0

/-- Concrete two-level draw oracle that always returns 0. -/
def orZ : ℕ → ℕ → ℝ := fun _ _ => 0

/-- Concrete one-timestep location trace with every occupant absent. -/
def locData1 : List LocMap := [locNone]

/-- Congruence helper for `arctan2`. -/
theorem arctan2_congr {y1 x1 y2 x2 : ℝ} (hy : y1 = y2) (hx : x1 = x2) :
    arctan2 y1 x1 = arctan2 y2 x2 := by
  rw [hy, hx]

/-- `pyround` of an integer is that integer. -/
theorem pyround_intCast (n : ℤ) : pyround (n : ℝ) = n := by
  unfold pyround
  rw [Int.floor_intCast]
  norm_num

/-- `dis` is symmetric. -/
theorem dis_symm (a b : ℝ × ℝ) : dis b a = dis a b := by
  unfold dis
  congr 1
  ring

/-- Swapping the two boxes swaps the two facing angles of `get_angle`. -/
theorem get_angle_swap (la lb : Box) :
    get_angle lb la = ((get_angle la lb).2, (get_angle la lb).1) := by
  unfold get_angle
  refine Prod.ext ?_ ?_ <;>
    simp only [dot_product, center, dr] <;>
    exact arctan2_congr (by ring) (by ring)

/-- `get_beta` is symmetric in its two boxes. -/
theorem get_beta_symm (D : Disease) (la lb : Box) :
    get_beta D lb la = get_beta D la lb := by
  unfold get_beta
  rw [get_angle_swap, dis_symm]
  unfold hazard
  congr 1
  exact congrArg Real.exp (by ring)

/-- Swapping the arguments of `get_transmission_rate` swaps its outputs. -/
theorem rate_swap (D : Disease) (t : ℕ) (sa sb : Status) (la lb : Box)
    (pa pb : ℤ × ℤ × ℤ) :
    get_transmission_rate D t sb sa lb la pb pa =
      Prod.swap (get_transmission_rate D t sa sb la lb pa pb) := by
  cases sa <;> cases sb <;>
    simp only [get_transmission_rate, reduceCtorEq, and_self, and_true, and_false,
      false_and, true_and, if_true, if_false, Prod.swap] <;>
    split_ifs <;> simp [get_beta_symm]

/-- When the two statuses are equal both outputs of
`get_transmission_rate` are zero. -/
theorem rate_zero_of_eq (D : Disease) (t : ℕ) (s : Status) (la lb : Box)
    (pa pb : ℤ × ℤ × ℤ) :
    get_transmission_rate D t s s la lb pa pb = (0, 0) := by
  cases s <;> simp [get_transmission_rate]

/-- C2: `get_progress_time` returns exactly
`start_infectious = current_hour + conservative_time`,
`stop_infectious = current_hour + round(-ln(p)/(no_infectious*3600))` and
`recovery_time = current_hour + round(-ln(p)/(gamma*3600))`, all integer
hours, and both waiting times are derived from the one draw `p`; since
they share `p`, `recovery_time` is not guaranteed to be at least
`stop_infectious` (second conjunct exhibits parameters with
`recovery_time < stop_infectious`). -/
theorem get_progress_time_spec :
    (∀ (D : Disease) (offset : ℕ) (p : ℝ),
      get_progress_time D offset p =
        (curr_hour offset + D.conservative_time,
         curr_hour offset + pyround (-Real.log p / (D.no_infectious * 3600)),
         curr_hour offset + pyround (-Real.log p / (D.gamma * 3600)))) ∧
    (∃ (D : Disease) (offset : ℕ) (p : ℝ),
      (get_progress_time D offset p).2.2 < (get_progress_time D offset p).2.1) := by
  constructor
  · intro D offset p
    rfl
  · refine ⟨⟨1, 1, 1, 1 / 2, 1, 1, 1, 1⟩, 0, Real.exp (-3600), ?_⟩
    have hlog : -Real.log (Real.exp (-3600)) = 3600 := by
      rw [Real.log_exp]; ring
    have h1 : pyround (-Real.log (Real.exp (-3600)) / ((1 : ℝ) * 3600)) = 1 := by
      rw [hlog, show (3600 : ℝ) / ((1 : ℝ) * 3600) = ((1 : ℤ) : ℝ) by norm_num]
      exact pyround_intCast 1
    have h2 : pyround (-Real.log (Real.exp (-3600)) / ((1 / 2 : ℝ) * 3600)) = 2 := by
      rw [hlog, show (3600 : ℝ) / ((1 / 2 : ℝ) * 3600) = ((2 : ℤ) : ℝ) by norm_num]
      exact pyround_intCast 2
    simp only [get_progress_time, h1, h2]
    omega

/-- C3: `get_beta` is the pure deterministic function
`beta = beta_max * exp(-(r^2/(2*sigma_r^2)) - (theta_a^2+theta_b^2)/(2*sigma_theta^2))`
with `r` the Euclidean distance between the box centers, the facing
angles those of `get_angle`, and `beta_max = (gamma*R0)/(rho_daily *
sigma_r^2 * sigma_theta^2)` where `rho_daily = nc/(4*pi) * p_daily`
exactly as the specification states them. -/
theorem get_beta_formula (D : Disease) (loc_a loc_b : Box) :
    get_beta D loc_a loc_b =
      spec_beta_max D *
        Real.exp (-(dis (center loc_a) (center loc_b) ^ 2 / (2 * D.sigma_r ^ 2)) -
          ((get_angle loc_a loc_b).1 ^ 2 + (get_angle loc_a loc_b).2 ^ 2) /
            (2 * D.sigma_theta ^ 2)) := by
  have h : beta_max D = spec_beta_max D := by
    unfold beta_max spec_beta_max beta_0 rho_daily spec_rho_daily
    ring
  unfold get_beta hazard
  rw [h]

/-- C7: `get_transmission_rate` applied with the two occupants swapped
(statuses, locations and timelines swapped) yields the same output pair
with its components swapped, and whenever the two statuses are equal both
outputs are zero. -/
theorem get_transmission_rate_symm (D : Disease) (t : ℕ) (sa sb : Status)
    (la lb : Box) (pa pb : ℤ × ℤ × ℤ) :
    get_transmission_rate D t sb sa lb la pb pa =
        Prod.swap (get_transmission_rate D t sa sb la lb pa pb) ∧
      (sa = sb → get_transmission_rate D t sa sb la lb pa pb = (0, 0)) := by
  refine ⟨rate_swap D t sa sb la lb pa pb, ?_⟩
  intro h
  subst h
  exact rate_zero_of_eq D t sa la lb pa pb

/-- Witness for C7 at a concrete input, with the equal-status hypothesis
discharged. -/
theorem get_transmission_rate_symm_witness :
    (get_transmission_rate D1 0 Status.HEALTH Status.HEALTH b0 b0 (pt1 0) (pt1 1) =
        Prod.swap (get_transmission_rate D1 0 Status.HEALTH Status.HEALTH b0 b0
          (pt1 1) (pt1 0))) ∧
      get_transmission_rate D1 0 Status.HEALTH Status.HEALTH b0 b0 (pt1 1) (pt1 0) =
        (0, 0) :=
  ⟨(get_transmission_rate_symm D1 0 Status.HEALTH Status.HEALTH b0 b0 (pt1 1) (pt1 0)).1,
   (get_transmission_rate_symm D1 0 Status.HEALTH Status.HEALTH b0 b0 (pt1 1) (pt1 0)).2 rfl⟩

/-- An `infStep` at another occupant leaves slot `k` untouched. -/
theorem infStep_apply_ne (D : Disease) (t : ℕ) (sb u v : ℕ → ℝ)
    (sp : StatusMap × PT) {x k : ℕ} (h : k ≠ x) :
    (infStep D t sb u v sp x).1 k = sp.1 k ∧ (infStep D t sb u v sp x).2 k = sp.2 k := by
  unfold infStep
  split_ifs <;> simp [Function.update_noteq h]

/-- Pointwise characterization of the infection loop of
`simulate_transmission`: occupant `k` ends infected with a fresh
progression exactly when it appears in the key list, starts healthy, and
its draw is at most its accumulated hazard; otherwise its slot is
unchanged. -/
theorem infFold_spec (D : Disease) (t : ℕ) (sb u v : ℕ → ℝ) :
    ∀ (ks : List ℕ) (sp : StatusMap × PT) (k : ℕ),
      ((ks.foldl (infStep D t sb u v) sp).1 k =
        if k ∈ ks ∧ sp.1 k = Status.HEALTH ∧ u k ≤ sb k then Status.INFECTED
        else sp.1 k) ∧
      ((ks.foldl (infStep D t sb u v) sp).2 k =
        if k ∈ ks ∧ sp.1 k = Status.HEALTH ∧ u k ≤ sb k then get_progress_time D t (v k)
        else sp.2 k) := by
  intro ks
  induction ks with
  | nil => intro sp k; simp
  | cons x xs ih =>
    intro sp k
    simp only [List.foldl_cons, List.mem_cons]
    by_cases hkx : k = x
    · subst hkx
      by_cases hH : sp.1 k = Status.HEALTH
      · by_cases hu : u k ≤ sb k
        · have hstep1 : (infStep D t sb u v sp k).1 k = Status.INFECTED := by
            simp [infStep, hH, hu]
          have hstep2 : (infStep D t sb u v sp k).2 k = get_progress_time D t (v k) := by
            simp [infStep, hH, hu]
          obtain ⟨ih1, ih2⟩ := ih (infStep D t sb u v sp k) k
          have hcond : ¬(k ∈ xs ∧ (infStep D t sb u v sp k).1 k = Status.HEALTH ∧
              u k ≤ sb k) := by
            rw [hstep1]; simp
          constructor
          · rw [ih1, if_neg hcond, hstep1, if_pos ⟨Or.inl rfl, hH, hu⟩]
          · rw [ih2, if_neg hcond, hstep2, if_pos ⟨Or.inl rfl, hH, hu⟩]
        · have hstep : infStep D t sb u v sp k = sp := by
            unfold infStep
            split_ifs <;> first | exact absurd (by assumption) hu | rfl
          obtain ⟨ih1, ih2⟩ := ih sp k
          have hcond : ¬((k = k ∨ k ∈ xs) ∧ sp.1 k = Status.HEALTH ∧ u k ≤ sb k) := by
            tauto
          have hcond2 : ¬(k ∈ xs ∧ sp.1 k = Status.HEALTH ∧ u k ≤ sb k) := by tauto
          rw [hstep]
          exact ⟨by rw [ih1, if_neg hcond2, if_neg hcond],
                 by rw [ih2, if_neg hcond2, if_neg hcond]⟩
      · have hstep : infStep D t sb u v sp k = sp := by
          unfold infStep
          split_ifs <;> first | exact absurd (by assumption) hH | rfl
        obtain ⟨ih1, ih2⟩ := ih sp k
        have hcond : ¬((k = k ∨ k ∈ xs) ∧ sp.1 k = Status.HEALTH ∧ u k ≤ sb k) := by
          tauto
        have hcond2 : ¬(k ∈ xs ∧ sp.1 k = Status.HEALTH ∧ u k ≤ sb k) := by tauto
        rw [hstep]
        exact ⟨by rw [ih1, if_neg hcond2, if_neg hcond],
               by rw [ih2, if_neg hcond2, if_neg hcond]⟩
    · obtain ⟨hne1, hne2⟩ := infStep_apply_ne D t sb u v sp hkx
      obtain ⟨ih1, ih2⟩ := ih (infStep D t sb u v sp x) k
      rw [hne1] at ih1 ih2
      rw [hne2] at ih2
      have hiff : ((k = x ∨ k ∈ xs) ∧ sp.1 k = Status.HEALTH ∧ u k ≤ sb k) ↔
          (k ∈ xs ∧ sp.1 k = Status.HEALTH ∧ u k ≤ sb k) := by
        simp [hkx]
      exact ⟨by rw [ih1, if_congr hiff rfl rfl],
             by rw [ih2, if_congr hiff rfl rfl]⟩

/-- A `crStep` at another occupant leaves slot `k` untouched. -/
theorem crStep_apply_ne (t : ℕ) (pt : PT) (st : StatusMap) {x k : ℕ} (h : k ≠ x) :
    crStep t pt st x k = st k := by
  unfold crStep
  split_ifs <;> simp [Function.update_noteq h]

/-- Pointwise characterization of `check_recovery`: occupant `k` ends
recovered exactly when it appears in the key list, is infected, and its
recovery time has passed; otherwise its status is unchanged. -/
theorem crFold_spec (t : ℕ) (pt : PT) :
    ∀ (ks : List ℕ) (st : StatusMap) (k : ℕ),
      ks.foldl (crStep t pt) st k =
        if k ∈ ks ∧ st k = Status.INFECTED ∧ (((pt k).2.2 : ℝ) ≤ (t : ℝ) / 3600) then
          Status.RECOVERED
        else st k := by
  intro ks
  induction ks with
  | nil => intro st k; simp
  | cons x xs ih =>
    intro st k
    simp only [List.foldl_cons, List.mem_cons]
    by_cases hkx : k = x
    · subst hkx
      by_cases hc : st k = Status.INFECTED ∧ (((pt k).2.2 : ℝ) ≤ (t : ℝ) / 3600)
      · have hstep : crStep t pt st k k = Status.RECOVERED := by
          simp [crStep, hc]
        have hcond : ¬(k ∈ xs ∧ crStep t pt st k k = Status.INFECTED ∧
            (((pt k).2.2 : ℝ) ≤ (t : ℝ) / 3600)) := by
          rw [hstep]; simp
        rw [ih (crStep t pt st k) k, if_neg hcond, hstep,
          if_pos ⟨Or.inl rfl, hc⟩]
      · have hstep : crStep t pt st k = st := by
          unfold crStep
          split_ifs <;> first | exact absurd (by assumption) hc | rfl
        have hcond : ¬((k = k ∨ k ∈ xs) ∧ st k = Status.INFECTED ∧
            (((pt k).2.2 : ℝ) ≤ (t : ℝ) / 3600)) := by tauto
        have hcond2 : ¬(k ∈ xs ∧ st k = Status.INFECTED ∧
            (((pt k).2.2 : ℝ) ≤ (t : ℝ) / 3600)) := by tauto
        rw [hstep, ih st k, if_neg hcond2, if_neg hcond]
    · have hne : crStep t pt st x k = st k := crStep_apply_ne t pt st hkx
      have hiff : ((k = x ∨ k ∈ xs) ∧ st k = Status.INFECTED ∧
          (((pt k).2.2 : ℝ) ≤ (t : ℝ) / 3600)) ↔
          (k ∈ xs ∧ st k = Status.INFECTED ∧
            (((pt k).2.2 : ℝ) ≤ (t : ℝ) / 3600)) := by
        simp [hkx]
      rw [ih (crStep t pt st x) k, hne, if_congr hiff rfl rfl]

/-- Swapping an occupant pair swaps its `pairContrib`. -/
theorem pairContrib_swap (D : Disease) (t : ℕ) (status : StatusMap) (loc : LocMap)
    (pt : PT) (i j : ℕ) :
    pairContrib D t status loc pt (j, i) =
      Prod.swap (pairContrib D t status loc pt (i, j)) := by
  unfold pairContrib
  rcases h1 : loc i with _ | la <;> rcases h2 : loc j with _ | lb <;>
    simp only [h1, h2]
  · rfl
  · rfl
  · rfl
  · exact rate_swap D t (status i) (status j) la lb (pt i) (pt j)

/-- One `pairStep` adds to slot `k` exactly the components of the pair's
contribution addressed to `k`. -/
theorem pairStep_apply (D : Disease) (t : ℕ) (status : StatusMap) (loc : LocMap)
    (pt : PT) (sb : ℕ → ℝ) (p : ℕ × ℕ) (k : ℕ) :
    pairStep D t status loc pt sb p k =
      sb k + ((if k = p.1 then (pairContrib D t status loc pt p).1 else 0) +
              (if k = p.2 then (pairContrib D t status loc pt p).2 else 0)) := by
  unfold pairStep pairContrib
  rcases h1 : loc p.1 with _ | la <;> rcases h2 : loc p.2 with _ | lb <;>
    simp only [h1, h2]
  · simp
  · simp
  · simp
  · simp only [Function.update_apply]
    split_ifs <;> simp_all <;> ring

/-- The accumulation fold equals the initial value plus the sum of the
per-pair contributions addressed to `k`. -/
theorem pairFold_sum (D : Disease) (t : ℕ) (status : StatusMap) (loc : LocMap)
    (pt : PT) :
    ∀ (ps : List (ℕ × ℕ)) (sb0 : ℕ → ℝ) (k : ℕ),
      ps.foldl (pairStep D t status loc pt) sb0 k =
        sb0 k + (ps.map (fun p =>
          (if k = p.1 then (pairContrib D t status loc pt p).1 else 0) +
          (if k = p.2 then (pairContrib D t status loc pt p).2 else 0))).sum := by
  intro ps
  induction ps with
  | nil => intro sb0 k; simp
  | cons p ps ih =>
    intro sb0 k
    simp only [List.foldl_cons, List.map_cons, List.sum_cons]
    rw [ih, pairStep_apply]
    ring

/-- Both components of a pair produced by `combs l` belong to `l`. -/
theorem combs_mem : ∀ (l : List ℕ) (p : ℕ × ℕ), p ∈ combs l → p.1 ∈ l ∧ p.2 ∈ l := by
  intro l
  induction l with
  | nil => intro p hp; simp [combs] at hp
  | cons x xs ih =>
    intro p hp
    simp only [combs, List.mem_append, List.mem_map] at hp
    rcases hp with ⟨y, hy, rfl⟩ | hp
    · exact ⟨by simp, by simp [hy]⟩
    · obtain ⟨h1, h2⟩ := ih p hp
      exact ⟨List.mem_cons_of_mem _ h1, List.mem_cons_of_mem _ h2⟩

/-- Sum over a duplicate-free list of an indicator picking out `k`. -/
theorem sum_if_single (f : ℕ → ℝ) :
    ∀ (l : List ℕ), l.Nodup → ∀ k ∈ l,
      (l.map (fun j => if k = j then f j else 0)).sum = f k := by
  intro l
  induction l with
  | nil => simp
  | cons x xs ih =>
    intro hnd k hk
    simp only [List.map_cons, List.sum_cons]
    rcases List.mem_cons.mp hk with rfl | hk2
    · rw [if_pos rfl]
      have hz : (xs.map (fun j => if k = j then f j else 0)).sum = 0 := by
        apply List.sum_eq_zero
        intro y hy
        obtain ⟨j, hj, rfl⟩ := List.mem_map.mp hy
        rw [if_neg]
        rintro rfl
        exact (List.nodup_cons.mp hnd).1 hj
      rw [hz]
      ring
    · have hkx : k ≠ x := by
        rintro rfl
        exact (List.nodup_cons.mp hnd).1 hk2
      rw [if_neg hkx, ih (List.nodup_cons.mp hnd).2 k hk2]
      ring

/-- Congruence for sums of mapped lists. -/
theorem map_sum_congr {f g : ℕ → ℝ} :
    ∀ (l : List ℕ), (∀ j ∈ l, f j = g j) → (l.map f).sum = (l.map g).sum := by
  intro l
  induction l with
  | nil => intro; rfl
  | cons x xs ih =>
    intro h
    simp only [List.map_cons, List.sum_cons]
    rw [h x (by simp), ih (fun j hj => h j (List.mem_cons_of_mem _ hj))]

/-- The total of the per-pair contributions of `combinations(l, 2)`
addressed to `k` equals the sum over all other occupants `j` of the
directed contribution of the pair `(k, j)`. -/
theorem combs_gAt_sum (D : Disease) (t : ℕ) (status : StatusMap) (loc : LocMap)
    (pt : PT) :
    ∀ (l : List ℕ), l.Nodup → ∀ k ∈ l,
      ((combs l).map (fun p =>
        (if k = p.1 then (pairContrib D t status loc pt p).1 else 0) +
        (if k = p.2 then (pairContrib D t status loc pt p).2 else 0))).sum =
      (l.map (fun j => if j = k then 0
        else (pairContrib D t status loc pt (k, j)).1)).sum := by
  intro l
  induction l with
  | nil => intro _ k hk; simp at hk
  | cons x xs ih =>
    intro hnd k hk
    obtain ⟨hx_nin, hnd_xs⟩ := List.nodup_cons.mp hnd
    simp only [combs, List.map_append, List.sum_append, List.map_map, List.map_cons,
      List.sum_cons]
    by_cases hkx : k = x
    · subst hkx
      have hA : (xs.map ((fun p =>
            (if k = p.1 then (pairContrib D t status loc pt p).1 else 0) +
            (if k = p.2 then (pairContrib D t status loc pt p).2 else 0)) ∘
              (fun y => (k, y)))).sum =
          (xs.map (fun j => (pairContrib D t status loc pt (k, j)).1)).sum := by
        apply map_sum_congr
        intro j hj
        have hkj : k ≠ j := by rintro rfl; exact hx_nin hj
        simp [Function.comp, hkj]
      have hB : ((combs xs).map (fun p =>
          (if k = p.1 then (pairContrib D t status loc pt p).1 else 0) +
          (if k = p.2 then (pairContrib D t status loc pt p).2 else 0))).sum = 0 := by
        apply List.sum_eq_zero
        intro y hy
        obtain ⟨p, hp, rfl⟩ := List.mem_map.mp hy
        obtain ⟨hp1, hp2⟩ := combs_mem xs p hp
        have h1 : k ≠ p.1 := by rintro rfl; exact hx_nin hp1
        have h2 : k ≠ p.2 := by rintro rfl; exact hx_nin hp2
        simp [h1, h2]
      have hC : (xs.map (fun j => if j = k then 0
          else (pairContrib D t status loc pt (k, j)).1)).sum =
          (xs.map (fun j => (pairContrib D t status loc pt (k, j)).1)).sum := by
        apply map_sum_congr
        intro j hj
        have hjk : j ≠ k := by rintro rfl; exact hx_nin hj
        simp [hjk]
      rw [hA, hB, hC, if_pos rfl]
      ring
    · have hk_xs : k ∈ xs := by
        rcases List.mem_cons.mp hk with h | h
        · exact absurd h hkx
        · exact h
      have hA : (xs.map ((fun p =>
            (if k = p.1 then (pairContrib D t status loc pt p).1 else 0) +
            (if k = p.2 then (pairContrib D t status loc pt p).2 else 0)) ∘
              (fun y => (x, y)))).sum =
          (xs.map (fun j => if k = j
            then (pairContrib D t status loc pt (x, j)).2 else 0)).sum := by
        apply map_sum_congr
        intro j hj
        simp [Function.comp, hkx]
      have hA2 : (xs.map (fun j => if k = j
          then (pairContrib D t status loc pt (x, j)).2 else 0)).sum =
          (pairContrib D t status loc pt (x, k)).2 :=
        sum_if_single (fun j => (pairContrib D t status loc pt (x, j)).2) xs hnd_xs k hk_xs
      have hswap : (pairContrib D t status loc pt (x, k)).2 =
          (pairContrib D t status loc pt (k, x)).1 := by
        rw [pairContrib_swap D t status loc pt k x]
        rfl
      rw [hA, hA2, hswap, ih hnd_xs k hk_xs, if_neg (Ne.symm hkx)]

/-- The accumulated hazard `sum_beta[k]` is the sum over all other
occupants `j` of the directed contribution of the pair `(k, j)`. -/
theorem sum_beta_spec (D : Disease) (t : ℕ) (keys : List ℕ) (status : StatusMap)
    (loc : LocMap) (pt : PT) (hnd : keys.Nodup) {k : ℕ} (hk : k ∈ keys) :
    sum_beta D t keys status loc pt k =
      (keys.map (fun j => if j = k then 0
        else (pairContrib D t status loc pt (k, j)).1)).sum := by
  unfold sum_beta
  rw [pairFold_sum]
  simpa using combs_gAt_sum D t status loc pt keys hnd k hk

/-- For a healthy occupant `k`, the directed contribution of the pair
`(k, j)` is the specification's hazard contribution from neighbor `j`. -/
theorem pairContrib_fst_healthy (D : Disease) (t : ℕ) (status : StatusMap)
    (loc : LocMap) (pt : PT) (k j : ℕ) (hH : status k = Status.HEALTH) :
    (pairContrib D t status loc pt (k, j)).1 = hazContrib D t status loc pt k j := by
  unfold pairContrib hazContrib
  rcases h1 : loc k with _ | lk <;> rcases h2 : loc j with _ | lj <;>
    simp only [h1, h2]
  show (get_transmission_rate D t (status k) (status j) lk lj (pt k) (pt j)).1 = _
  rw [hH]
  unfold get_transmission_rate
  cases hsj : status j <;> simp [hsj, apply_ite]
  split_ifs with hw
  · intro h; exact absurd hw h
  · intro h; exact absurd h hw

/-- A pair contribution addressed to an absent occupant is zero. -/
theorem pairContrib_parts_absent (D : Disease) (t : ℕ) (status : StatusMap)
    (loc : LocMap) (pt : PT) (p : ℕ × ℕ) (k : ℕ) (hk : loc k = none) :
    (k = p.1 → (pairContrib D t status loc pt p).1 = 0) ∧
    (k = p.2 → (pairContrib D t status loc pt p).2 = 0) := by
  unfold pairContrib
  rcases h1 : loc p.1 with _ | la <;> rcases h2 : loc p.2 with _ | lb <;>
    simp only [h1, h2]
  all_goals try exact ⟨fun _ => by trivial, fun _ => by trivial⟩
  refine ⟨fun h => ?_, fun h => ?_⟩
  · rw [← h] at h1; rw [hk] at h1; simp at h1
  · rw [← h] at h2; rw [hk] at h2; simp at h2

/-- The accumulated hazard of an occupant absent from `loc_dict` is zero. -/
theorem sum_beta_absent (D : Disease) (t : ℕ) (keys : List ℕ) (status : StatusMap)
    (loc : LocMap) (pt : PT) (k : ℕ) (hk : loc k = none) :
    sum_beta D t keys status loc pt k = 0 := by
  unfold sum_beta
  rw [pairFold_sum]
  simp only [zero_add]
  apply List.sum_eq_zero
  intro y hy
  obtain ⟨p, hp, rfl⟩ := List.mem_map.mp hy
  obtain ⟨hz1, hz2⟩ := pairContrib_parts_absent D t status loc pt p k hk
  by_cases h1 : k = p.1
  · by_cases h2 : k = p.2
    · rw [if_pos h1, if_pos h2, hz1 h1, hz2 h2]; ring
    · rw [if_pos h1, if_neg h2, hz1 h1]; ring
  · by_cases h2 : k = p.2
    · rw [if_neg h1, if_pos h2, hz2 h2]; ring
    · rw [if_neg h1, if_neg h2]; ring

/-- A pair contribution is zero when either occupant is absent. -/
theorem pairContrib_eq_zero_of_absent (D : Disease) (t : ℕ) (status : StatusMap)
    (loc : LocMap) (pt : PT) (i j : ℕ) (h : loc i = none ∨ loc j = none) :
    pairContrib D t status loc pt (i, j) = (0, 0) := by
  unfold pairContrib
  rcases h with h | h
  · rcases h2 : loc j with _ | lb <;> simp [h, h2]
  · rcases h1 : loc i with _ | la <;> simp [h1, h]

/-- C1: in the infection pass of `simulate_transmission`, a healthy
occupant turns infected exactly when its single uniform draw is at most
its accumulated hazard sum (first conjunct); for a healthy occupant that
sum is the total of the hazard contributions of all co-present infected
neighbors whose infectious window contains the current hour (second
conjunct); the sum is not clamped, so a sum above one forces infection
for every draw in the unit interval (third conjunct); and upon infection
the progression sampler is invoked immediately with the current time as
base (fourth conjunct). -/
theorem simulate_transmission_spec (D : Disease) (t : ℕ) (keys : List ℕ)
    (status : StatusMap) (loc : LocMap) (pt : PT) (u v : ℕ → ℝ) (k : ℕ)
    (hnd : keys.Nodup) (hk : k ∈ keys) :
    ((simulate_transmission D t keys status loc pt u v).1 k = Status.INFECTED ↔
      (status k = Status.INFECTED ∨
        (status k = Status.HEALTH ∧ u k ≤ sum_beta D t keys status loc pt k))) ∧
    (status k = Status.HEALTH →
      sum_beta D t keys status loc pt k =
        (keys.map (fun j => if j = k then 0 else hazContrib D t status loc pt k j)).sum) ∧
    (status k = Status.HEALTH → 1 < sum_beta D t keys status loc pt k → u k ≤ 1 →
      (simulate_transmission D t keys status loc pt u v).1 k = Status.INFECTED) ∧
    (status k = Status.HEALTH → u k ≤ sum_beta D t keys status loc pt k →
      (simulate_transmission D t keys status loc pt u v).2 k =
        get_progress_time D t (v k)) := by
  have heq : simulate_transmission D t keys status loc pt u v =
      keys.foldl (infStep D t (sum_beta D t keys status loc pt) u v) (status, pt) := rfl
  have hchar := infFold_spec D t (sum_beta D t keys status loc pt) u v keys (status, pt) k
  refine ⟨?_, ?_, ?_, ?_⟩
  · rw [heq, hchar.1]
    by_cases hc : k ∈ keys ∧ status k = Status.HEALTH ∧
        u k ≤ sum_beta D t keys status loc pt k
    · rw [if_pos hc]
      constructor
      · intro _
        exact Or.inr ⟨hc.2.1, hc.2.2⟩
      · intro _
        rfl
    · rw [if_neg hc]
      constructor
      · intro h
        exact Or.inl h
      · rintro (h | ⟨hH, hu⟩)
        · exact h
        · exact absurd ⟨hk, hH, hu⟩ hc
  · intro hH
    rw [sum_beta_spec D t keys status loc pt hnd hk]
    apply map_sum_congr
    intro j hj
    by_cases hjk : j = k
    · simp [hjk]
    · rw [if_neg hjk, if_neg hjk, pairContrib_fst_healthy D t status loc pt k j hH]
  · intro hH h1 hu
    rw [heq, hchar.1, if_pos ⟨hk, hH, le_trans hu (le_of_lt h1)⟩]
  · intro hH hu
    rw [heq, hchar.2, if_pos ⟨hk, hH, hu⟩]

/-- C4: both state-updating operations respect the status progression:
`Vaccinated` and `Recovered` never change, `Healthy` moves at most to
`Infected` (only in `simulate_transmission`), `Infected` moves at most to
`Recovered` (only in `check_recovery`); no operation reverses a status. -/
theorem status_transitions_monotone (D : Disease) (t t2 : ℕ) (keys : List ℕ)
    (status : StatusMap) (loc : LocMap) (pt : PT) (u v : ℕ → ℝ) (k : ℕ) :
    progression (status k) ((simulate_transmission D t keys status loc pt u v).1 k) ∧
    progression (status k) (check_recovery t2 keys status pt k) := by
  constructor
  · have hchar := (infFold_spec D t (sum_beta D t keys status loc pt) u v keys
      (status, pt) k).1
    rw [show simulate_transmission D t keys status loc pt u v =
      keys.foldl (infStep D t (sum_beta D t keys status loc pt) u v) (status, pt)
      from rfl, hchar]
    by_cases hc : k ∈ keys ∧ status k = Status.HEALTH ∧
        u k ≤ sum_beta D t keys status loc pt k
    · rw [if_pos hc, hc.2.1]
      exact Or.inr rfl
    · rw [if_neg hc]
      cases hs : status k <;> simp [progression, hs]
  · rw [show check_recovery t2 keys status pt = keys.foldl (crStep t2 pt) status
      from rfl, crFold_spec]
    by_cases hc : k ∈ keys ∧ status k = Status.INFECTED ∧
        (((pt k).2.2 : ℝ) ≤ (t2 : ℝ) / 3600)
    · rw [if_pos hc, hc.2.1]
      exact Or.inr rfl
    · rw [if_neg hc]
      cases hs : status k <;> simp [progression, hs]

/-- C6: `check_recovery` at time `t` seconds turns occupant `k` recovered
exactly when it is a listed occupant, is infected, and its recovery hour
has passed (`recovery_time <= t/3600`, written integrally as
`recovery_time * 3600 <= t`); every other occupant keeps its status. -/
theorem check_recovery_spec (t : ℕ) (keys : List ℕ) (status : StatusMap) (pt : PT)
    (k : ℕ) :
    check_recovery t keys status pt k =
      if k ∈ keys ∧ status k = Status.INFECTED ∧ (pt k).2.2 * 3600 ≤ (t : ℤ) then
        Status.RECOVERED
      else status k := by
  rw [show check_recovery t keys status pt = keys.foldl (crStep t pt) status from rfl,
    crFold_spec]
  have hiff : (((pt k).2.2 : ℝ) ≤ (t : ℝ) / 3600) ↔ ((pt k).2.2 * 3600 ≤ (t : ℤ)) := by
    rw [le_div_iff₀ (by norm_num : (0 : ℝ) < 3600)]
    exact_mod_cast Iff.rfl
  have hcond : (k ∈ keys ∧ status k = Status.INFECTED ∧
      (((pt k).2.2 : ℝ) ≤ (t : ℝ) / 3600)) ↔
      (k ∈ keys ∧ status k = Status.INFECTED ∧ (pt k).2.2 * 3600 ≤ (t : ℤ)) := by
    constructor
    · rintro ⟨h1, h2, h3⟩
      exact ⟨h1, h2, hiff.mp h3⟩
    · rintro ⟨h1, h2, h3⟩
      exact ⟨h1, h2, hiff.mpr h3⟩
  rw [if_congr hcond rfl rfl]

/-- The current hour at simulated time 0 is 0. -/
theorem curr_hour_zero : curr_hour 0 = 0 := by
  unfold curr_hour
  rw [show ((0 : ℕ) : ℝ) / 3600 = ((0 : ℤ) : ℝ) by norm_num, pyround_intCast]

/-- The hazard of two identical degenerate boxes at the origin is the
maximal hazard `beta_max`. -/
theorem get_beta_b0_b0 (D : Disease) : get_beta D b0 b0 = beta_max D := by
  have harct : arctan2 0 0 = 0 := by unfold arctan2; norm_num
  have hang : get_angle b0 b0 = (0, 0) := by
    simp [get_angle, dot_product, harct]
  have hdis : dis (center b0) (center b0) = 0 := by
    simp [dis]
  unfold get_beta
  rw [hang, hdis]
  unfold hazard
  norm_num

/-- With all disease constants one, `beta_max` equals `4 * pi`, which
exceeds one. -/
theorem one_lt_beta_max_D1 : (1 : ℝ) < beta_max D1 := by
  have hval : beta_max D1 = Real.pi * 4 := by
    unfold beta_max beta_0 rho_daily
    simp only [D1]
    have hpi := Real.pi_ne_zero
    field_simp
    norm_num
  rw [hval]
  nlinarith [Real.pi_gt_three]

/-- Witness for C1: two occupants at the same spot, occupant 1 infected
and in its infectious window, occupant 0 healthy with draw 0; since the
accumulated hazard `beta_max = 4*pi` exceeds one, occupant 0 is infected
and resampled. -/
theorem simulate_transmission_spec_witness :
    ((simulate_transmission D1 0 [0, 1] stHI locB0 pt1 uZero uZero).1 0 =
        Status.INFECTED ↔
      (stHI 0 = Status.INFECTED ∨
        (stHI 0 = Status.HEALTH ∧ uZero 0 ≤ sum_beta D1 0 [0, 1] stHI locB0 pt1 0))) ∧
    sum_beta D1 0 [0, 1] stHI locB0 pt1 0 =
      ([0, 1].map (fun j => if j = 0 then 0
        else hazContrib D1 0 stHI locB0 pt1 0 j)).sum ∧
    (simulate_transmission D1 0 [0, 1] stHI locB0 pt1 uZero uZero).1 0 =
      Status.INFECTED ∧
    (simulate_transmission D1 0 [0, 1] stHI locB0 pt1 uZero uZero).2 0 =
      get_progress_time D1 0 (uZero 0) := by
  have h := simulate_transmission_spec D1 0 [0, 1] stHI locB0 pt1 uZero uZero 0
    (by decide) (by decide)
  have hwin : inWindow (pt1 1) (curr_hour 0) := by
    rw [curr_hour_zero]
    decide
  have hhaz : hazContrib D1 0 stHI locB0 pt1 0 1 = get_beta D1 b0 b0 := by
    show (if stHI 1 = Status.INFECTED ∧ inWindow (pt1 1) (curr_hour 0)
        then get_beta D1 b0 b0 else 0) = get_beta D1 b0 b0
    rw [if_pos ⟨rfl, hwin⟩]
  have hsum : sum_beta D1 0 [0, 1] stHI locB0 pt1 0 = get_beta D1 b0 b0 := by
    rw [h.2.1 rfl]
    simp only [List.map_cons, List.map_nil, List.sum_cons, List.sum_nil]
    simp [hhaz]
  have hgt : (1 : ℝ) < sum_beta D1 0 [0, 1] stHI locB0 pt1 0 := by
    rw [hsum, get_beta_b0_b0]
    exact one_lt_beta_max_D1
  have hle : uZero 0 ≤ sum_beta D1 0 [0, 1] stHI locB0 pt1 0 := by
    rw [show uZero 0 = (0 : ℝ) from rfl]
    linarith
  exact ⟨h.1, h.2.1 rfl, h.2.2.1 rfl hgt (by norm_num [uZero]), h.2.2.2 rfl hle⟩

/-- C10 (amended): an occupant absent from the timestep's location
mapping accumulates zero hazard, contributes nothing to any other
occupant's accumulated hazard (removing it from the dict leaves every
other sum unchanged), and keeps its status provided its uniform draw is
positive (or it is not healthy); a draw of exactly 0 is the one exception
(see the counterexample). -/
theorem absent_occupant_excluded (D : Disease) (t : ℕ) (keys : List ℕ)
    (status : StatusMap) (loc : LocMap) (pt : PT) (u v : ℕ → ℝ) (k : ℕ)
    (hnd : keys.Nodup) (hk : k ∈ keys) (habs : loc k = none) :
    sum_beta D t keys status loc pt k = 0 ∧
    (∀ m, m ∈ keys → m ≠ k →
      sum_beta D t keys status loc pt m =
        sum_beta D t (keys.erase k) status loc pt m) ∧
    (0 < u k → (simulate_transmission D t keys status loc pt u v).1 k = status k) ∧
    (status k ≠ Status.HEALTH →
      (simulate_transmission D t keys status loc pt u v).1 k = status k) := by
  have heq : simulate_transmission D t keys status loc pt u v =
      keys.foldl (infStep D t (sum_beta D t keys status loc pt) u v) (status, pt) := rfl
  have hchar := (infFold_spec D t (sum_beta D t keys status loc pt) u v keys
    (status, pt) k).1
  refine ⟨sum_beta_absent D t keys status loc pt k habs, ?_, ?_, ?_⟩
  · intro m hm hmk
    have hm2 : m ∈ keys.erase k := (List.mem_erase_of_ne hmk).mpr hm
    rw [sum_beta_spec D t keys status loc pt hnd hm,
      sum_beta_spec D t (keys.erase k) status loc pt (hnd.erase k) hm2]
    have hperm : keys.Perm (k :: keys.erase k) := List.perm_cons_erase hk
    rw [(hperm.map (fun j => if j = m then 0
      else (pairContrib D t status loc pt (m, j)).1)).sum_eq]
    simp only [List.map_cons, List.sum_cons]
    rw [if_neg (Ne.symm hmk),
      show (pairContrib D t status loc pt (m, k)).1 = 0 from by
        rw [pairContrib_eq_zero_of_absent D t status loc pt m k (Or.inr habs)]]
    ring
  · intro hu
    rw [heq, hchar, if_neg]
    rintro ⟨-, -, hle⟩
    rw [sum_beta_absent D t keys status loc pt k habs] at hle
    linarith
  · intro hH
    rw [heq, hchar, if_neg]
    rintro ⟨-, h2, -⟩
    exact hH h2

/-- Witness for C10 at a concrete input: occupant 0 absent, draw 1. -/
theorem absent_occupant_excluded_witness :
    sum_beta D1 0 [0, 1] stH locNone pt1 0 = 0 ∧
    sum_beta D1 0 [0, 1] stH locNone pt1 1 =
      sum_beta D1 0 ([0, 1].erase 0) stH locNone pt1 1 ∧
    (simulate_transmission D1 0 [0, 1] stH locNone pt1 (fun _ => 1) uZero).1 0 =
      stH 0 := by
  have h := absent_occupant_excluded D1 0 [0, 1] stH locNone pt1 (fun _ => 1) uZero 0
    (by decide) (by decide) rfl
  exact ⟨h.1, h.2.1 1 (by decide) (by decide), h.2.2.1 (by norm_num)⟩

/-- C10 counterexample: the claim as stated says an absent occupant's
status is unchanged by `resolve_exposures`, but a healthy absent occupant
whose uniform draw is exactly 0 satisfies `draw <= sum_beta = 0` and is
infected (numpy's `uniform(0, 1)` can return 0). -/
theorem absent_occupant_cex :
    stH 0 = Status.HEALTH ∧ locNone 0 = none ∧
    (simulate_transmission D1 0 [0] stH locNone pt1 uZero uZero).1 0 =
      Status.INFECTED := by
  refine ⟨rfl, rfl, ?_⟩
  have hchar := (infFold_spec D1 0 (sum_beta D1 0 [0] stH locNone pt1) uZero uZero [0]
    (stH, pt1) 0).1
  rw [show simulate_transmission D1 0 [0] stH locNone pt1 uZero uZero =
    [0].foldl (infStep D1 0 (sum_beta D1 0 [0] stH locNone pt1) uZero uZero)
      (stH, pt1) from rfl, hchar, if_pos]
  refine ⟨by decide, rfl, ?_⟩
  rw [show uZero 0 = (0 : ℝ) from rfl,
    sum_beta_absent D1 0 [0] stH locNone pt1 0 rfl]

/-- C8: under positive model constants, the hazard is non-negative;
`get_beta` is the hazard curve evaluated at the (non-negative) center
distance and the facing angles; for fixed angles the curve is strictly
decreasing in the distance on the non-negative half-line; and it attains
its maximum `beta_max` exactly at distance 0 with both angles 0. -/
theorem get_beta_shape (D : Disease) (hsr : 0 < D.sigma_r) (hst : 0 < D.sigma_theta)
    (hg : 0 < D.gamma) (hr0 : 0 < D.r0) (hnc : 0 < D.nc) (hp : 0 < D.p_daily) :
    (∀ loc_a loc_b, 0 ≤ get_beta D loc_a loc_b) ∧
    (∀ loc_a loc_b,
      get_beta D loc_a loc_b =
        hazard D (dis (center loc_a) (center loc_b)) (get_angle loc_a loc_b).1
          (get_angle loc_a loc_b).2 ∧
      0 ≤ dis (center loc_a) (center loc_b)) ∧
    (∀ r1 r2 t1 t2 : ℝ, 0 ≤ r1 → r1 < r2 → hazard D r2 t1 t2 < hazard D r1 t1 t2) ∧
    hazard D 0 0 0 = beta_max D ∧
    (∀ r t1 t2 : ℝ, hazard D r t1 t2 ≤ beta_max D) ∧
    (∀ r t1 t2 : ℝ, hazard D r t1 t2 = beta_max D → r = 0 ∧ t1 = 0 ∧ t2 = 0) := by
  have h2sr : (0 : ℝ) < 2 * D.sigma_r ^ 2 := by positivity
  have h2st : (0 : ℝ) < 2 * D.sigma_theta ^ 2 := by positivity
  have hrho : 0 < rho_daily D := by
    unfold rho_daily
    have hden : (0 : ℝ) < Real.pi * 2 ^ 2 := by positivity
    exact mul_pos (div_pos hnc hden) hp
  have hbm : 0 < beta_max D := by
    unfold beta_max beta_0
    exact div_pos (mul_pos hg hr0)
      (mul_pos (mul_pos hrho (pow_pos hsr 2)) (pow_pos hst 2))
  refine ⟨?_, ?_, ?_, ?_, ?_, ?_⟩
  · intro la lb
    exact le_of_lt (mul_pos hbm (Real.exp_pos _))
  · intro la lb
    exact ⟨rfl, Real.sqrt_nonneg _⟩
  · intro r1 r2 t1 t2 h0 hlt
    unfold hazard
    apply mul_lt_mul_of_pos_left _ hbm
    apply Real.exp_lt_exp.mpr
    have hsq : r1 ^ 2 < r2 ^ 2 := by nlinarith
    have hdiv : r1 ^ 2 / (2 * D.sigma_r ^ 2) < r2 ^ 2 / (2 * D.sigma_r ^ 2) := by
      gcongr
    linarith
  · unfold hazard
    norm_num
  · intro r t1 t2
    unfold hazard
    have hX : 0 ≤ r ^ 2 / (2 * D.sigma_r ^ 2) := by positivity
    have hY : 0 ≤ (t1 ^ 2 + t2 ^ 2) / (2 * D.sigma_theta ^ 2) := by positivity
    calc beta_max D *
          Real.exp (-(r ^ 2 / (2 * D.sigma_r ^ 2)) -
            (t1 ^ 2 + t2 ^ 2) / (2 * D.sigma_theta ^ 2)) ≤
        beta_max D * 1 :=
          mul_le_mul_of_nonneg_left (Real.exp_le_one_iff.mpr (by linarith))
            (le_of_lt hbm)
      _ = beta_max D := mul_one _
  · intro r t1 t2 heq
    unfold hazard at heq
    nth_rewrite 2 [show beta_max D = beta_max D * 1 from (mul_one _).symm] at heq
    have hexp := mul_left_cancel₀ (ne_of_gt hbm) heq
    have harg0 := (Real.exp_eq_one_iff _).mp hexp
    have hX : 0 ≤ r ^ 2 / (2 * D.sigma_r ^ 2) := by positivity
    have hY : 0 ≤ (t1 ^ 2 + t2 ^ 2) / (2 * D.sigma_theta ^ 2) := by positivity
    have hX0 : r ^ 2 / (2 * D.sigma_r ^ 2) = 0 := by linarith
    have hY0 : (t1 ^ 2 + t2 ^ 2) / (2 * D.sigma_theta ^ 2) = 0 := by linarith
    have hr2 : r ^ 2 = 0 := by
      rcases div_eq_zero_iff.mp hX0 with h | h
      · exact h
      · exact absurd h (ne_of_gt h2sr)
    have ht12 : t1 ^ 2 + t2 ^ 2 = 0 := by
      rcases div_eq_zero_iff.mp hY0 with h | h
      · exact h
      · exact absurd h (ne_of_gt h2st)
    have ht1 : t1 ^ 2 = 0 := by nlinarith [sq_nonneg t1, sq_nonneg t2]
    have ht2 : t2 ^ 2 = 0 := by nlinarith [sq_nonneg t1, sq_nonneg t2]
    exact ⟨sq_eq_zero_iff.mp hr2, sq_eq_zero_iff.mp ht1, sq_eq_zero_iff.mp ht2⟩

/-- Witness for C8 at concrete values, every hypothesis discharged. -/
theorem get_beta_shape_witness :
    0 ≤ get_beta D1 b0 b0 ∧
    (get_beta D1 b0 b0 = hazard D1 (dis (center b0) (center b0))
      (get_angle b0 b0).1 (get_angle b0 b0).2 ∧ 0 ≤ dis (center b0) (center b0)) ∧
    hazard D1 1 0 0 < hazard D1 0 0 0 ∧
    hazard D1 0 0 0 = beta_max D1 ∧
    hazard D1 2 3 4 ≤ beta_max D1 := by
  have h := get_beta_shape D1 (by norm_num [D1]) (by norm_num [D1]) (by norm_num [D1])
    (by norm_num [D1]) (by norm_num [D1]) (by norm_num [D1])
  exact ⟨h.1 b0 b0, h.2.1 b0 b0, h.2.2.1 0 1 0 0 le_rfl zero_lt_one, h.2.2.2.1,
    h.2.2.2.2.1 2 3 4⟩

/-- When the day loop completes without an early extinction return, it
performs exactly `rem` iterations, each replaying the trace once. -/
theorem dayLoop_replays (D : Disease) (interval : ℕ) (locData : List LocMap)
    (keys : List ℕ) (U V : ℕ → ℕ → ℝ) :
    ∀ (rem day : ℕ) (s : SimState),
      (dayLoop D interval locData keys U V day rem s).2.1 = false →
      (dayLoop D interval locData keys U V day rem s).2.2 = rem := by
  intro rem
  induction rem with
  | zero => intro day s _; rfl
  | succ n ih =>
    intro day s hstop
    simp only [dayLoop] at hstop ⊢
    by_cases h1 : (classLoop D interval keys U V locData s).2 = true
    · rw [if_pos h1] at hstop
      simp at hstop
    · rw [if_neg h1] at hstop ⊢
      by_cases h2 : (offLoop interval keys
          ((if day % 5 = 0 then 3 * 24 * 3600 else 24 * 3600) - locData.length)
          (classLoop D interval keys U V locData s).1).2 = true
      · rw [if_pos h2] at hstop
        simp at hstop
      · rw [if_neg h2] at hstop ⊢
        have h3 := ih (day + 1)
          (offLoop interval keys
            ((if day % 5 = 0 then 3 * 24 * 3600 else 24 * 3600) - locData.length)
            (classLoop D interval keys U V locData s).1).1 hstop
        simp only [h3]

/-- C5 (amended): the day loop of `simulate` is `for day in
range(1, max_simulation_days)`, so a run that completes without early
extinction (second component `false`, the source's normal completion /
HorizonReached) replays the class-period trace exactly
`max_simulation_days - 1` times, once per iterated day. -/
theorem trace_replay_count (D : Disease) (interval : ℕ) (locData : List LocMap)
    (keys : List ℕ) (U V : ℕ → ℕ → ℝ) (Vinit : ℕ → ℝ) (maxDays : ℕ)
    (status0 : StatusMap)
    (hno : (simulate D interval locData keys U V Vinit maxDays status0).2.1 = false) :
    (simulate D interval locData keys U V Vinit maxDays status0).2.2 = maxDays - 1 :=
  dayLoop_replays D interval locData keys U V (maxDays - 1) 1
    ⟨0, status0, fun k => get_progress_time D 0 (Vinit k), []⟩ hno

/-- Witness for C5 at a concrete input: `max_simulation_days = 1`, one
occupant, one-timestep trace; the run completes normally with
`1 - 1 = 0` trace replays. -/
theorem trace_replay_count_witness :
    (simulate D1 1 locData1 [0] orZ orZ uZero 1 stI).2.2 = 1 - 1 :=
  trace_replay_count D1 1 locData1 [0] orZ orZ uZero 1 stI rfl

/-- C5 counterexample: at `max_simulation_days = 1` the run completes
without extinction (no early return) yet the trace is replayed 0 times,
not `max_simulation_days = 1` times as the claim states. -/
theorem trace_replay_count_cex :
    (simulate D1 1 locData1 [0] orZ orZ uZero 1 stI).2.1 = false ∧
    (simulate D1 1 locData1 [0] orZ orZ uZero 1 stI).2.2 = 0 ∧ (0 : ℕ) ≠ 1 :=
  ⟨rfl, rfl, by decide⟩

/-- Sorted insertion permutes to consing. -/
theorem insert_sorted_perm (n : ℕ) : ∀ l : List ℕ, (insert_sorted n l).Perm (n :: l) := by
  intro l
  induction l with
  | nil => simp [insert_sorted]
  | cons x xs ih =>
    unfold insert_sorted
    by_cases h : n ≤ x
    · rw [if_pos h]
    · rw [if_neg h]
      exact (ih.cons x).trans (List.Perm.swap n x xs)

/-- `sorted(status)` is a permutation of the dict keys. -/
theorem sortKeys_perm : ∀ l : List ℕ, (sortKeys l).Perm l := by
  intro l
  induction l with
  | nil => simp [sortKeys]
  | cons x xs ih =>
    exact (insert_sorted_perm x (sortKeys xs)).trans (ih.cons x)

/-- A snapshot contains the code 1 exactly when some listed occupant is
infected. -/
theorem mem_snapshot_iff (keys : List ℕ) (st : StatusMap) :
    (1 : ℤ) ∈ snapshotOf keys st ↔ Status.INFECTED ∈ keys.map st := by
  unfold snapshotOf
  rw [List.mem_map, List.mem_map]
  constructor
  · rintro ⟨k, hk, hcode⟩
    refine ⟨k, (sortKeys_perm keys).mem_iff.mp hk, ?_⟩
    cases h : st k
    · exfalso; rw [h] at hcode; exact absurd hcode (by decide)
    · rfl
    · exfalso; rw [h] at hcode; exact absurd hcode (by decide)
    · exfalso; rw [h] at hcode; exact absurd hcode (by decide)
  · rintro ⟨k, hk, hst⟩
    exact ⟨k, (sortKeys_perm keys).mem_iff.mpr hk, by rw [hst]; rfl⟩

/-- After the output/extinction block: when the run continues, every
emitted snapshot so far shows an infected occupant; when it stops, every
snapshot but the last does. -/
theorem outputCheck_good (interval : ℕ) (keys : List ℕ) (s : SimState)
    (hgood : ∀ x ∈ s.snaps, (1 : ℤ) ∈ x) :
    ((outputCheck interval keys s).2 = false →
      ∀ x ∈ (outputCheck interval keys s).1.snaps, (1 : ℤ) ∈ x) ∧
    ((outputCheck interval keys s).2 = true →
      ∀ x ∈ (outputCheck interval keys s).1.snaps.dropLast, (1 : ℤ) ∈ x) := by
  simp only [outputCheck]
  split_ifs with ht hin
  · refine ⟨fun _ x hx => ?_, fun h => by simp at h⟩
    rcases List.mem_append.mp hx with hx2 | hx2
    · exact hgood x hx2
    · rw [List.mem_singleton] at hx2
      rw [hx2]
      exact (mem_snapshot_iff keys _).mpr hin
  · refine ⟨fun h => by simp at h, fun _ x hx => ?_⟩
    have hdl : (s.snaps ++ [snapshotOf keys
        (check_recovery s.t keys s.status s.pt)]).dropLast = s.snaps := by simp
    rw [hdl] at hx
    exact hgood x hx
  · exact ⟨fun _ x hx => hgood x hx, fun h => by simp at h⟩

/-- The in-class loop preserves the snapshot invariant. -/
theorem classLoop_good (D : Disease) (interval : ℕ) (keys : List ℕ)
    (U V : ℕ → ℕ → ℝ) :
    ∀ (lds : List LocMap) (s : SimState), (∀ x ∈ s.snaps, (1 : ℤ) ∈ x) →
      ((classLoop D interval keys U V lds s).2 = false →
        ∀ x ∈ (classLoop D interval keys U V lds s).1.snaps, (1 : ℤ) ∈ x) ∧
      ((classLoop D interval keys U V lds s).2 = true →
        ∀ x ∈ (classLoop D interval keys U V lds s).1.snaps.dropLast, (1 : ℤ) ∈ x) := by
  intro lds
  induction lds with
  | nil =>
    intro s hgood
    exact ⟨fun _ x hx => hgood x hx, fun h => by simp [classLoop] at h⟩
  | cons ld rest ih =>
    intro s hgood
    have hoc := outputCheck_good interval keys s hgood
    simp only [classLoop]
    by_cases h1 : (outputCheck interval keys s).2 = true
    · rw [if_pos h1]
      exact ⟨fun h => by simp at h, fun _ => hoc.2 h1⟩
    · rw [if_neg h1]
      have h1f : (outputCheck interval keys s).2 = false := by
        cases hb : (outputCheck interval keys s).2
        · rfl
        · exact absurd hb h1
      exact ih _ (hoc.1 h1f)

/-- The off-class loop preserves the snapshot invariant. -/
theorem offLoop_good (interval : ℕ) (keys : List ℕ) :
    ∀ (n : ℕ) (s : SimState), (∀ x ∈ s.snaps, (1 : ℤ) ∈ x) →
      ((offLoop interval keys n s).2 = false →
        ∀ x ∈ (offLoop interval keys n s).1.snaps, (1 : ℤ) ∈ x) ∧
      ((offLoop interval keys n s).2 = true →
        ∀ x ∈ (offLoop interval keys n s).1.snaps.dropLast, (1 : ℤ) ∈ x) := by
  intro n
  induction n with
  | zero =>
    intro s hgood
    exact ⟨fun _ x hx => hgood x hx, fun h => by simp [offLoop] at h⟩
  | succ m ih =>
    intro s hgood
    have hoc := outputCheck_good interval keys s hgood
    simp only [offLoop]
    by_cases h1 : (outputCheck interval keys s).2 = true
    · rw [if_pos h1]
      exact ⟨fun h => by simp at h, fun _ => hoc.2 h1⟩
    · rw [if_neg h1]
      have h1f : (outputCheck interval keys s).2 = false := by
        cases hb : (outputCheck interval keys s).2
        · rfl
        · exact absurd hb h1
      exact ih _ (hoc.1 h1f)

/-- The day loop preserves the snapshot invariant. -/
theorem dayLoop_good (D : Disease) (interval : ℕ) (locData : List LocMap)
    (keys : List ℕ) (U V : ℕ → ℕ → ℝ) :
    ∀ (rem day : ℕ) (s : SimState), (∀ x ∈ s.snaps, (1 : ℤ) ∈ x) →
      ((dayLoop D interval locData keys U V day rem s).2.1 = false →
        ∀ x ∈ (dayLoop D interval locData keys U V day rem s).1.snaps, (1 : ℤ) ∈ x) ∧
      ((dayLoop D interval locData keys U V day rem s).2.1 = true →
        ∀ x ∈ (dayLoop D interval locData keys U V day rem s).1.snaps.dropLast,
          (1 : ℤ) ∈ x) := by
  intro rem
  induction rem with
  | zero =>
    intro day s hgood
    exact ⟨fun _ x hx => hgood x hx, fun h => by simp [dayLoop] at h⟩
  | succ n ih =>
    intro day s hgood
    have hcl := classLoop_good D interval keys U V locData s hgood
    simp only [dayLoop]
    by_cases h1 : (classLoop D interval keys U V locData s).2 = true
    · rw [if_pos h1]
      exact ⟨fun h => by simp at h, fun _ => hcl.2 h1⟩
    · rw [if_neg h1]
      have h1f : (classLoop D interval keys U V locData s).2 = false := by
        cases hb : (classLoop D interval keys U V locData s).2
        · rfl
        · exact absurd hb h1
      have hof := offLoop_good interval keys
        ((if day % 5 = 0 then 3 * 24 * 3600 else 24 * 3600) - locData.length)
        (classLoop D interval keys U V locData s).1 (hcl.1 h1f)
      by_cases h2 : (offLoop interval keys
          ((if day % 5 = 0 then 3 * 24 * 3600 else 24 * 3600) - locData.length)
          (classLoop D interval keys U V locData s).1).2 = true
      · rw [if_pos h2]
        exact ⟨fun h => by simp at h, fun _ => hof.2 h2⟩
      · rw [if_neg h2]
        have h2f : (offLoop interval keys
            ((if day % 5 = 0 then 3 * 24 * 3600 else 24 * 3600) - locData.length)
            (classLoop D interval keys U V locData s).1).2 = false := by
          cases hb : (offLoop interval keys
              ((if day % 5 = 0 then 3 * 24 * 3600 else 24 * 3600) - locData.length)
              (classLoop D interval keys U V locData s).1).2
          · rfl
          · exact absurd hb h2
        have hd := ih (day + 1)
          (offLoop interval keys
            ((if day % 5 = 0 then 3 * 24 * 3600 else 24 * 3600) - locData.length)
            (classLoop D interval keys U V locData s).1).1 (hof.1 h2f)
        exact ⟨fun h => hd.1 h, fun h => hd.2 h⟩

/-- C9: extinction stops the run immediately, so in every run each
emitted snapshot other than the final one shows at least one infected
occupant: the run never continues past an all-non-infected snapshot
(the early return is the source's ExtinctEarlyStop; exhausting the day
loop is its normal HorizonReached completion). -/
theorem extinction_stops_run (D : Disease) (interval : ℕ) (locData : List LocMap)
    (keys : List ℕ) (U V : ℕ → ℕ → ℝ) (Vinit : ℕ → ℝ) (maxDays : ℕ)
    (status0 : StatusMap) :
    ((simulate D interval locData keys U V Vinit maxDays status0).1.snaps.dropLast).all
      (fun x => decide ((1 : ℤ) ∈ x)) = true := by
  rw [List.all_eq_true]
  intro x hx
  simp only [decide_eq_true_eq]
  have hd := dayLoop_good D interval locData keys U V (maxDays - 1) 1
    ⟨0, status0, fun k => get_progress_time D 0 (Vinit k), []⟩ (by simp)
  cases hb : (dayLoop D interval locData keys U V 1 (maxDays - 1)
      ⟨0, status0, fun k => get_progress_time D 0 (Vinit k), []⟩).2.1
  · exact hd.1 hb x ((List.dropLast_sublist _).subset hx)
  · exact hd.2 hb x hx
